import Mathlib

/-!
Shallow embedding of the superdesk-planning UI sources under verification:

* history helpers `getPlanningItemHistory` / `getGroupedCoverageHistory`
  (planning history utilities file);
* the planning edit panel's save/publish method machine and forced
  read-only computation (`EditPlanningPanel`);
* the related-articles search modal's provider resolution, local selection
  and Apply gating (`EventsRelatedArticlesModal`);
* the array-field editor's add/remove with confirmation (`InputArray`);
* the coverage assignment modal's local draft and lodash-style path
  update (`EditCoverageAssignmentModalComponent`).

JavaScript values are modelled with `Option` for possibly-absent fields
(`none` stands for both `undefined` and `null`, which the sources only
distinguish through `== null`-style checks), strings for scalar field
values, and insertion-ordered association lists for plain objects.
String truthiness (`get(x, path)` used as a condition) is modelled
explicitly: the empty string is falsy, every other string is truthy.
Object identifiers used as map keys (coverage ids) are modelled as exact
object keys.
-/

/-! ## History entry data model (planning history utilities) -/

/-- The `update.planning` sub-object of a history entry. -/
structure PlanningUpdate where
  g2_content_type : Option String := none
  scheduled : Option String := none
deriving DecidableEq, Repr

/-- A plain JS object of assignment fields (`update.assigned_to`),
insertion-ordered key/value pairs with string values. -/
abbrev AssignedObj := List (String × String)

/-- The `update` sub-object of a history entry. -/
structure HUpdate where
  coverage_id : Option String := none
  planning : Option PlanningUpdate := none
  assigned_to : Option AssignedObj := none
  workflow_status : Option String := none
  pubstatus : Option String := none
deriving DecidableEq, Repr

/-- A history log entry `{operation, update, user_id, _created}`. -/
structure HistoryEntry where
  operation : String := ""
  update : HUpdate := {}
  user_id : Option String := none
  created_at : String := ""
deriving DecidableEq, Repr

/-- JS truthiness of a possibly-absent string: absent and the empty
string are falsy; any other string is truthy (returned). -/
def truthyStr : Option String → Option String
  | some s => if s = "" then none else some s
  | none => none

/-- Evaluation of `get(item, 'update.coverage_id')` as used in a condition: the
coverage id when present and truthy. -/
def truthyCid (e : HistoryEntry) : Option String :=
  truthyStr e.update.coverage_id

/-- Evaluation of `get(item, 'update.planning.g2_content_type')`. -/
def g2Of (e : HistoryEntry) : Option String :=
  match e.update.planning with
  | some p => p.g2_content_type
  | none => none

/-- Evaluation of `get(item, 'update.planning.scheduled')` (raw value, before the
`moment(...)` wrapping applied on storage). -/
def schedOf (e : HistoryEntry) : Option String :=
  match e.update.planning with
  | some p => p.scheduled
  | none => none

/-- Evaluation of `get(item, 'update.workflow_status')`. -/
def wfOf (e : HistoryEntry) : Option String :=
  e.update.workflow_status

/-- A `moment(value)` wrapper around a raw scheduled value: the code
stores `moment(item.update.planning.scheduled)` in the aggregate. -/
structure MomentValue where
  raw : String
deriving DecidableEq, Repr

/-- The call `moment(s)`. -/
def moment (s : String) : MomentValue := ⟨s⟩

/-- Lookup of a key in a plain JS object of assignment fields. -/
def objGet (o : AssignedObj) (k : String) : Option String :=
  (o.find? (fun p => p.1 = k)).map (fun p => p.2)

/-- JS object spread `{...a, ...b}`: keys of `a` first (values overridden
by `b` where both have the key), then keys only `b` has, in order. -/
def objMerge (a b : AssignedObj) : AssignedObj :=
  a.map (fun p => (p.1, (objGet b p.1).getD p.2)) ++
    b.filter (fun p => (objGet a p.1).isNone)

/-- The aggregated `planning` sub-record of a coverage history group. -/
structure CoveragePlanningAgg where
  g2_content_type : Option String := none
  scheduled : Option MomentValue := none
deriving DecidableEq, Repr

/-- One aggregated coverage-history record
`{items: [...], planning: {...}, assigned_to: {...}, workflow_status?}`. -/
structure CoverageHistoryGroup where
  items : List HistoryEntry := []
  planning : CoveragePlanningAgg := {}
  assigned_to : AssignedObj := []
  workflow_status : Option String := none
deriving DecidableEq, Repr

/-- The `covHistory` accumulator object, keyed by coverage id, in key
insertion order. -/
abbrev CoverageHistoryMap := List (String × CoverageHistoryGroup)

/-- Evaluation of `get(covHistory, cid)` with the id as an exact object key. -/
def lookupGroup (m : CoverageHistoryMap) (cid : String) : Option CoverageHistoryGroup :=
  (m.find? (fun p => p.1 = cid)).map (fun p => p.2)

/-- Assignment `covHistory[cid] = g`: overwrite the existing binding in place, or
append a new one. -/
def setGroup (m : CoverageHistoryMap) (cid : String) (g : CoverageHistoryGroup) :
    CoverageHistoryMap :=
  match m with
  | [] => [(cid, g)]
  | (k, h) :: rest =>
      if k = cid then (cid, g) :: rest else (k, h) :: setGroup rest cid g

/-- The body of the `forEach` in `getGroupedCoverageHistory`, applied to
the group record of the entry's coverage id (lines appending to `items`
and conditionally overwriting/merging the summary fields). -/
def applyEntry (g : CoverageHistoryGroup) (e : HistoryEntry) : CoverageHistoryGroup :=
  let g := { g with items := g.items ++ [e] }
  let g :=
    match truthyStr (g2Of e) with
    | some v => { g with planning := { g.planning with g2_content_type := some v } }
    | none => g
  let g :=
    match truthyStr (schedOf e) with
    | some v => { g with planning := { g.planning with scheduled := some (moment v) } }
    | none => g
  let g :=
    match e.update.assigned_to with
    | some o => { g with assigned_to := objMerge g.assigned_to o }
    | none => g
  let g :=
    match truthyStr (wfOf e) with
    | some v => { g with workflow_status := some v }
    | none => g
  g

/-- One iteration of `getGroupedCoverageHistory`'s `forEach`: skip the
entry when `update.coverage_id` is falsy, otherwise create the group on
first sight and update it. -/
def gchStep (m : CoverageHistoryMap) (e : HistoryEntry) : CoverageHistoryMap :=
  match truthyCid e with
  | none => m
  | some cid => setGroup m cid (applyEntry ((lookupGroup m cid).getD {}) e)

/-- The function `getGroupedCoverageHistory(historyItems)`. -/
def getGroupedCoverageHistory (historyItems : List HistoryEntry) : CoverageHistoryMap :=
  historyItems.foldl gchStep []

/-- The function `getPlanningItemHistory(historyItems)`: push the entries whose
`update.coverage_id` is falsy, in order. -/
def getPlanningItemHistory (historyItems : List HistoryEntry) : List HistoryEntry :=
  historyItems.foldl
    (fun history item => if (truthyCid item).isNone then history ++ [item] else history) []

/-- The entries attributed to a given coverage id, in input order
(claim-side description of a group's member entries). -/
def coverageEntriesFor (es : List HistoryEntry) (cid : String) : List HistoryEntry :=
  es.filter (fun e => decide (truthyCid e = some cid))

/-- Claim-side: the value from the last entry (in input order) whose
field `f` is set (truthy), if any. -/
def lastSetValue (f : HistoryEntry → Option String) (es : List HistoryEntry) : Option String :=
  es.foldl
    (fun acc e =>
      match truthyStr (f e) with
      | some v => some v
      | none => acc) none

/-- Claim-side: the `update.assigned_to` object of the last entry (in
input order) that set the field, if any. -/
def lastSetAssignedTo (es : List HistoryEntry) : Option AssignedObj :=
  es.foldl
    (fun acc e =>
      match e.update.assigned_to with
      | some o => some o
      | none => acc) none

/-- What the code actually computes for `assigned_to`: the left-to-right
spread-merge of every `update.assigned_to` object present, starting from
the empty object. -/
def mergedAssignedTo (es : List HistoryEntry) : AssignedObj :=
  es.foldl
    (fun acc e =>
      match e.update.assigned_to with
      | some o => objMerge acc o
      | none => acc) []

/-! ## Planning edit panel (`EditPlanningPanel`): save method machine -/

/-- The `saveMethods` helper enum of the planning edit panel. -/
inductive SaveMethod
  | SAVE
  | PUBLISH
  | UNPUBLISH
  | SAVE_PUBLISH
  | SAVE_UNPUBLISH
deriving DecidableEq, Repr

/-- The redux actions the panel's `onSubmit` can dispatch. -/
inductive PlanningAction
  | save
  | publish
  | unpublish
  | saveAndPublish
  | saveAndUnpublish
deriving DecidableEq, Repr

/-- The `switch` in `EditPlanningPanel.onSubmit`: which action is
dispatched for the stored save method (`SAVE` and the default case both
dispatch `save`). -/
def onSubmitDispatch : SaveMethod → PlanningAction
  | SaveMethod.PUBLISH => PlanningAction.publish
  | SaveMethod.UNPUBLISH => PlanningAction.unpublish
  | SaveMethod.SAVE_PUBLISH => PlanningAction.saveAndPublish
  | SaveMethod.SAVE_UNPUBLISH => PlanningAction.saveAndUnpublish
  | SaveMethod.SAVE => PlanningAction.save

/-- The transient component state holding the selected save method. -/
structure PanelSaveState where
  saveMethod : SaveMethod
deriving DecidableEq, Repr

/-- Handler `EditPlanningPanel.handleSave`: submit the form (running `onSubmit`
on the stored method, yielding the dispatched action) and then restore
the method to `SAVE`. -/
def handleSave (s : PanelSaveState) : PlanningAction × PanelSaveState :=
  (onSubmitDispatch s.saveMethod, { saveMethod := SaveMethod.SAVE })

/-- Handler `EditPlanningPanel.handleSaveAndPublish` (the Publish button's
handler): pick `PUBLISH` when the form is pristine or read-only,
`SAVE_PUBLISH` otherwise, then run `handleSave`. -/
def handleSaveAndPublish (pristine readOnly : Bool) (s : PanelSaveState) :
    PlanningAction × PanelSaveState :=
  if pristine || readOnly then
    handleSave { s with saveMethod := SaveMethod.PUBLISH }
  else
    handleSave { s with saveMethod := SaveMethod.SAVE_PUBLISH }

/-- Handler `EditPlanningPanel.handleSaveAndUnpublish` (the Unpublish button's
handler), analogous. -/
def handleSaveAndUnpublish (pristine readOnly : Bool) (s : PanelSaveState) :
    PlanningAction × PanelSaveState :=
  if pristine || readOnly then
    handleSave { s with saveMethod := SaveMethod.UNPUBLISH }
  else
    handleSave { s with saveMethod := SaveMethod.SAVE_UNPUBLISH }

/-- The `forceReadOnly` computation in `EditPlanningPanel.render`: start
from the caller-supplied `readOnly`, then force `true` when the session
does not hold the lock or the event or the planning is spiked.  This is
the value passed to the `PlanningForm` as its `readOnly` prop. -/
def effectiveReadOnly (readOnly lockedInThisSession planningSpiked eventSpiked : Bool) : Bool :=
  let forced := readOnly
  if !lockedInThisSession || eventSpiked || planningSpiked then true else forced

/-! ## Array-field editor (`InputArray`) -/

/-- Observable effects of the array editor's handlers, in order of
occurrence: the confirmation prompt, the `onChange(field, newValue)`
callback to the parent form, and the success notification. -/
inductive ArrayEditorEffect (α : Type)
  | confirmPrompt
  | changed (value : List α)
  | notifySuccess
deriving DecidableEq, Repr

/-- Handler `InputArray.onAdd`: the new list passed to `onChange` is
`[...currentValue, newElement]`, with `currentValue = this.props.value ?? []`. -/
def inputArrayAdd {α : Type} (value : Option (List α)) (newElement : α) : List α :=
  value.getD [] ++ [newElement]

/-- JS `list.filter((v, i) => i !== index)`, with `i` the running index
starting from the second argument. -/
def filterIdxNe {α : Type} : List α → Nat → Nat → List α
  | [], _, _ => []
  | x :: xs, i, index =>
      if i = index then filterIdxNe xs (i + 1) index else x :: filterIdxNe xs (i + 1) index

/-- The list `InputArray.remove` passes to `onChange` when the removal
is confirmed: `(this.props.value ?? []).filter((value, i) => i !== index)`. -/
def inputArrayRemoveResult {α : Type} (value : Option (List α)) (index : Nat) : List α :=
  filterIdxNe (value.getD []) 0 index

/-- Handler `InputArray.remove(index)`: the effect trace.  The confirmation
prompt always comes first; only if the response is affirmative are the
`onChange` mutation and the success notification emitted. -/
def inputArrayRemove {α : Type} (value : Option (List α)) (index : Nat)
    (confirmResponse : Bool) : List (ArrayEditorEffect α) :=
  ArrayEditorEffect.confirmPrompt ::
    (if confirmResponse then
      [ArrayEditorEffect.changed (inputArrayRemoveResult value index),
       ArrayEditorEffect.notifySuccess]
    else [])

/-! ## Related-articles search modal (`EventsRelatedArticlesModal`) -/

/-- An article as handled by the modal.  `search_provider` is `none`
when the key is absent or `undefined` (indistinguishable under
`JSON.stringify`). -/
structure RArticle where
  guid : String
  body : String := ""
  search_provider : Option String := none
deriving DecidableEq, Repr

/-- A `/search_providers` list item (the fields the modal reads). -/
structure SearchProviderRec where
  rec_id : String
  search_provider : String
deriving DecidableEq, Repr

/-- The provider resolution in `componentDidMount`: when no provider name is
configured, no lookup request is made and `repo` stays `null`; otherwise
`repo` is set to the `_id` of the first provider whose
`search_provider` equals the configured name (`undefined`, i.e. `none`,
when there is no match). -/
def resolveSearchProvider (configuredName : Option String)
    (providers : List SearchProviderRec) : Option String :=
  match configuredName with
  | none => none
  | some name => (providers.find? (fun p => p.search_provider = name)).map (fun p => p.rec_id)

/-- Outcome of one `getItems(pageNo, pageSize, signal)` call of the
`WithPagination` body: either the locally resolved empty result (no
request issued), or an HTTP request to `/search_providers_proxy` for the
given repo and page. -/
inductive FetchOutcome
  | emptyResult (items : List RArticle) (itemCount : Nat)
  | proxyRequest (repo : String) (page : Nat) (pageSize : Nat)
deriving DecidableEq, Repr

/-- The `getItems` guard: `if (this.state.repo == null) return
Promise.resolve({items: [], itemCount: 0})`, otherwise the proxy request
is issued. -/
def relatedArticlesGetItems (repo : Option String) (page pageSize : Nat) : FetchOutcome :=
  match repo with
  | none => FetchOutcome.emptyResult [] 0
  | some r => FetchOutcome.proxyRequest r page pageSize

/-- The modal state components relevant to selection handling. -/
structure RAModalState where
  selectedArticlesProp : Option (List RArticle)
  currentlySelectedArticles : Option (List RArticle)
  repo : Option String
deriving DecidableEq, Repr

/-- The constructor's initial state: `currentlySelectedArticles =
this.props.selectedArticles` (the props are fixed for the modal's
lifetime; `repo` is whatever provider resolution produced). -/
def initialRAState (sel : Option (List RArticle)) (repo : Option String) : RAModalState :=
  { selectedArticlesProp := sel, currentlySelectedArticles := sel, repo := repo }

/-- User operations on the modal that touch the selection or the footer
buttons. -/
inductive RAOp
  | addArticle (a : RArticle)
  | removeArticle (guid : String)
  | pressApply
  | pressCancel
deriving DecidableEq, Repr

/-- Observable effects of the modal's handlers.  `onChangeCalled`
carries the selection flushed to the caller (the source additionally
pipes it through `cleanArticlesFields`, a field-stripping helper defined
outside these sources, before handing it to `props.onChange`). -/
inductive RAEffect
  | onChangeCalled (articles : List RArticle)
  | closeModal
deriving DecidableEq, Repr

/-- One user operation: `addArticle` appends `{...article,
search_provider: this.state.repo}`; `removeArticle` filters the local
selection by guid; Apply flushes the local selection via
`props.onChange` and closes; Cancel only closes. -/
def raStep (s : RAModalState) (op : RAOp) : RAModalState × List RAEffect :=
  match op with
  | RAOp.addArticle a =>
      ({ s with
          currentlySelectedArticles :=
            some ((s.currentlySelectedArticles.getD []) ++
              [{ a with search_provider := s.repo }]) }, [])
  | RAOp.removeArticle g =>
      ({ s with
          currentlySelectedArticles :=
            some ((s.currentlySelectedArticles.getD []).filter (fun x => x.guid ≠ g)) }, [])
  | RAOp.pressApply =>
      (s, [RAEffect.onChangeCalled (s.currentlySelectedArticles.getD []), RAEffect.closeModal])
  | RAOp.pressCancel =>
      (s, [RAEffect.closeModal])

/-- Run a sequence of operations from a state, keeping only the state. -/
def runRAState (s : RAModalState) (ops : List RAOp) : RAModalState :=
  ops.foldl (fun st op => (raStep st op).1) s

/-- The Apply button's `disabled` expression:
`JSON.stringify(this.props.selectedArticles) ===
JSON.stringify(this.state.currentlySelectedArticles)`, i.e. structural
equality of the initial and the pending selection. -/
def applyDisabled (s : RAModalState) : Bool :=
  decide (s.selectedArticlesProp = s.currentlySelectedArticles)

/-! ## Coverage assignment modal (`EditCoverageAssignmentModalComponent`) -/

/-- A JSON-like value tree: the shape `cloneDeep`, lodash `set` and the
draft object operate on.  Objects are insertion-ordered field lists. -/
inductive JVal
  | null
  | str (s : String)
  | boolean (b : Bool)
  | num (n : Int)
  | obj (fields : List (String × JVal))

/-- The call `cloneDeep`: in a value semantics a deep copy is the value itself
(the lodash call only severs JS reference aliasing). -/
def cloneDeep (v : JVal) : JVal := v

/-- Assignment to a field of a JS object: overwrite the existing binding
in place, or append a new one. -/
def objSetField : List (String × JVal) → String → JVal → List (String × JVal)
  | [], k, v => [(k, v)]
  | (k', v') :: rest, k, v =>
      if k' = k then (k, v) :: rest else (k', v') :: objSetField rest k v

/-- Field lookup in a JS object. -/
def objGetField : List (String × JVal) → String → Option JVal
  | [], _ => none
  | (k', v') :: rest, k => if k' = k then some v' else objGetField rest k

/-- Whether a value is a plain object. -/
def isObjVal : JVal → Bool
  | JVal.obj _ => true
  | _ => false

/-- lodash `set(d, path, v)` with the path already split into keys:
walks/creates intermediate objects and assigns at the final key;
non-object roots are returned unchanged. -/
def lodashSet : List String → JVal → JVal → JVal
  | [], _, d => d
  | k :: rest, v, d =>
      match d with
      | JVal.obj fs =>
          match rest with
          | [] => JVal.obj (objSetField fs k v)
          | _ :: _ =>
              let child := (objGetField fs k).getD JVal.null
              let child' := if isObjVal child then child else JVal.obj []
              JVal.obj (objSetField fs k (lodashSet rest v child'))
      | _ => d

/-- lodash `get(d, path)` with the path already split into keys. -/
def lodashGet : List String → JVal → Option JVal
  | [], d => some d
  | k :: rest, d =>
      match d with
      | JVal.obj fs =>
          match objGetField fs k with
          | some c => lodashGet rest c
          | none => none
      | _ => none

/-- Two paths diverge when they differ at some position both have:
neither is a prefix of the other, so they address disjoint subtrees. -/
def pathDiverges : List String → List String → Bool
  | p1 :: ps, q1 :: qs => if p1 = q1 then pathDiverges ps qs else true
  | _, _ => false

/-- The caller-supplied `modalProps` the modal reads. -/
structure CoverageModalProps where
  field : List String
  value : Option JVal

/-- The modal's local state. -/
structure CoverageModalState where
  submitting : Bool
  diff : JVal
  valid : Bool

/-- The constructor: `diff = cloneDeep(props.modalProps.value) ?? {}`,
`submitting = false`, `valid = true`. -/
def initCoverageModalState (props : CoverageModalProps) : CoverageModalState :=
  { submitting := false
    diff := (props.value.map cloneDeep).getD (JVal.obj [])
    valid := true }

/-- Callback invocations observable by the modal's caller. -/
inductive CoverageModalEffect
  | onChangeCb (field : List String) (v : JVal)
  | setDefaultDeskCb (v : JVal)
  | hideModal

/-- Handler `onChange(field, value)`: clone the draft, `set` the path on the
clone, store it.  The props are passed through untouched and no caller
callback is invoked. -/
def coverageModalOnChange (props : CoverageModalProps) (s : CoverageModalState)
    (field : List String) (v : JVal) :
    (CoverageModalProps × CoverageModalState) × List CoverageModalEffect :=
  ((props, { s with diff := lodashSet field v (cloneDeep s.diff) }), [])

/-- Handler `setValid(valid)`: local state only, no caller callback. -/
def coverageModalSetValid (props : CoverageModalProps) (s : CoverageModalState)
    (valid : Bool) : (CoverageModalProps × CoverageModalState) × List CoverageModalEffect :=
  ((props, { s with valid := valid }), [])

/-- Handler `onSubmit()`: set `submitting`, then call
`modalProps.onChange(modalProps.field, diff)`,
`modalProps.setCoverageDefaultDesk(diff)` and hide the modal. -/
def coverageModalOnSubmit (props : CoverageModalProps) (s : CoverageModalState) :
    (CoverageModalProps × CoverageModalState) × List CoverageModalEffect :=
  ((props, { s with submitting := true }),
   [CoverageModalEffect.onChangeCb props.field s.diff,
    CoverageModalEffect.setDefaultDeskCb s.diff,
    CoverageModalEffect.hideModal])

/-! ## Store-passing transcription of the history helpers

To state that the history helpers do not mutate their input, the two
functions are transcribed over an explicit store of entries addressed by
position, threading the store through every loop iteration exactly as
the JS engine would thread the heap: each iteration only reads the
store (`get` paths on the entry) and writes local accumulators, so the
store component of the result is what the transcription returns. -/

/-- Read the entry at an address of the store (out-of-range reads yield
a default entry; the callers below only use addresses of the store). -/
def readEntry (store : List HistoryEntry) (addr : Nat) : HistoryEntry :=
  (store.get? addr).getD {}

/-- Store-passing `getPlanningItemHistory`: fold over the input
addresses, threading the store and pushing matching addresses onto the
local `history` array. -/
def getPlanningItemHistoryS (store : List HistoryEntry) (addrs : List Nat) :
    List HistoryEntry × List Nat :=
  addrs.foldl
    (fun acc a =>
      let store := acc.1
      let history := acc.2
      if (truthyCid (readEntry store a)).isNone then (store, history ++ [a])
      else (store, history))
    (store, [])

/-- Store-passing `getGroupedCoverageHistory`: fold over the input
addresses, threading the store and updating the local `covHistory`
object (groups hold the read entry values, as the pure version does). -/
def getGroupedCoverageHistoryS (store : List HistoryEntry) (addrs : List Nat) :
    List HistoryEntry × CoverageHistoryMap :=
  addrs.foldl
    (fun acc a =>
      let store := acc.1
      let m := acc.2
      (store, gchStep m (readEntry store a)))
    (store, [])

/-! ## Concrete records used to evaluate the definitions -/

/-- The flattened list of members of all coverage-history groups. -/
def groupItemsList (m : CoverageHistoryMap) : List HistoryEntry :=
  m.flatMap (fun p => p.2.items)

/-- A coverage history entry assigning a desk and a user. -/
def covEntryA : HistoryEntry :=
  { update :=
      { coverage_id := some "cov1"
        planning := some { g2_content_type := some "text" }
        assigned_to := some [("desk", "deskA"), ("user", "userU")] } }

/-- A later coverage history entry reassigning only the desk. -/
def covEntryB : HistoryEntry :=
  { update :=
      { coverage_id := some "cov1"
        assigned_to := some [("desk", "deskB")]
        workflow_status := some "active" } }

/-- The aggregated group the code produces for the two entries above. -/
def covGroupW : CoverageHistoryGroup :=
  (lookupGroup (getGroupedCoverageHistory [covEntryA, covEntryB]) "cov1").getD {}

/-- An entry whose `update.coverage_id` key is present but empty. -/
def falsyCidEntry : HistoryEntry :=
  { update := { coverage_id := some "" } }

/-- A provider record whose name does not match the lookups below. -/
def providerRecW : SearchProviderRec :=
  { rec_id := "prov-1", search_provider := "aapmm" }

/-- Modal props for the coverage assignment witness. -/
def coverageModalPropsW : CoverageModalProps :=
  { field := ["coverages", "0", "assigned_to"], value := some (JVal.obj []) }

/-- The state the coverage assignment modal opens with for those props. -/
def coverageModalStateW : CoverageModalState :=
  initCoverageModalState coverageModalPropsW

/-! ## Theorems -/

/-- C3: in the planning edit panel, with `pristine = true` and
`readOnly = false`, pressing the Publish button makes the submit handler
dispatch the `publish` action (never `saveAndPublish`), and after the
submission completes the stored save method is reset to save-only. -/
theorem publish_pristine_dispatches_publish_only (s : PanelSaveState) :
    (handleSaveAndPublish true false s).1 = PlanningAction.publish ∧
    (handleSaveAndPublish true false s).1 ≠ PlanningAction.saveAndPublish ∧
    (handleSaveAndPublish true false s).2.saveMethod = SaveMethod.SAVE := by
  refine ⟨rfl, ?_, rfl⟩
  intro h
  exact PlanningAction.noConfusion h

/-- C4: the effective read-only state the panel passes to the form is
forced to `true` whenever the session does not hold the lock or the
planning or its event is spiked, regardless of the caller-supplied
value; otherwise it equals the caller-supplied value. -/
theorem effectiveReadOnly_forced_or_passthrough
    (readOnly lockedInThisSession planningSpiked eventSpiked : Bool) :
    ((lockedInThisSession = false ∨ planningSpiked = true ∨ eventSpiked = true) →
      effectiveReadOnly readOnly lockedInThisSession planningSpiked eventSpiked = true) ∧
    (lockedInThisSession = true → planningSpiked = false → eventSpiked = false →
      effectiveReadOnly readOnly lockedInThisSession planningSpiked eventSpiked = readOnly) := by
  constructor
  · rintro (rfl | rfl | rfl) <;> simp [effectiveReadOnly]
  · rintro rfl rfl rfl
    simp [effectiveReadOnly]

/-- Witness for C4: with the lock not held the form is read-only even
though the caller passed `readOnly = false`; with the lock held and
nothing spiked the caller's `false` passes through. -/
theorem effectiveReadOnly_forced_or_passthrough_witness :
    effectiveReadOnly false false false false = true ∧
    effectiveReadOnly false true false false = false :=
  ⟨(effectiveReadOnly_forced_or_passthrough false false false false).1 (Or.inl rfl),
   (effectiveReadOnly_forced_or_passthrough false true false false).2 rfl rfl rfl⟩

/-- Removing exactly the index just past `l` from `l ++ [d]` (JS
`filter((v, i) => i !== index)` with a running index) gives back `l`. -/
theorem filterIdxNe_append_last {α : Type} (d : α) :
    ∀ (l : List α) (n : Nat), filterIdxNe (l ++ [d]) n (n + l.length) = l := by
  intro l
  induction l with
  | nil =>
      intro n
      simp [filterIdxNe]
  | cons x l ih =>
      intro n
      have hne : n ≠ n + (x :: l).length := by simp
      simp only [List.cons_append, filterIdxNe, List.length_cons]
      rw [if_neg (by omega)]
      have h := ih (n + 1)
      rw [show n + (l.length + 1) = n + 1 + l.length by omega]
      exact congrArg (List.cons x) h

/-- C6: `remove(index)` prompts for confirmation before any mutation;
declining leaves the list untouched and fires no success notification;
`onAdd` followed by an accepted `remove` of the new last index returns
the list to its prior contents (hence prior length), with the success
notification emitted after the mutation. -/
theorem inputArray_remove_confirm_gated {α : Type} (value : Option (List α)) (index : Nat)
    (d : α) :
    ((inputArrayRemove value index false : List (ArrayEditorEffect α)) =
      [ArrayEditorEffect.confirmPrompt]) ∧
    ((inputArrayRemove value index true).head? = some ArrayEditorEffect.confirmPrompt) ∧
    ((inputArrayRemove value index true : List (ArrayEditorEffect α)) =
      [ArrayEditorEffect.confirmPrompt,
       ArrayEditorEffect.changed (inputArrayRemoveResult value index),
       ArrayEditorEffect.notifySuccess]) ∧
    (inputArrayRemoveResult (some (inputArrayAdd value d)) (value.getD []).length =
      value.getD []) ∧
    ((inputArrayRemoveResult (some (inputArrayAdd value d))
        (value.getD []).length).length = (value.getD []).length) := by
  have hback : inputArrayRemoveResult (some (inputArrayAdd value d)) (value.getD []).length =
      value.getD [] := by
    have h := filterIdxNe_append_last d (value.getD []) 0
    simpa [inputArrayRemoveResult, inputArrayAdd] using h
  exact ⟨rfl, rfl, rfl, hback, by rw [hback]⟩

/-- Store preservation of a fold whose step keeps the first component. -/
theorem getPlanningItemHistoryS_foldl_fst (addrs : List Nat) :
    ∀ (acc : List HistoryEntry × List Nat),
      (addrs.foldl
        (fun acc a =>
          let store := acc.1
          let history := acc.2
          if (truthyCid (readEntry store a)).isNone then (store, history ++ [a])
          else (store, history)) acc).1 = acc.1 := by
  induction addrs with
  | nil => intro acc; rfl
  | cons a as ih =>
      intro acc
      rw [List.foldl_cons, ih]
      dsimp only
      split <;> rfl

/-- Store preservation for the grouped-history fold. -/
theorem getGroupedCoverageHistoryS_foldl_fst (addrs : List Nat) :
    ∀ (acc : List HistoryEntry × CoverageHistoryMap),
      (addrs.foldl
        (fun acc a =>
          let store := acc.1
          let m := acc.2
          (store, gchStep m (readEntry store a))) acc).1 = acc.1 := by
  induction addrs with
  | nil => intro acc; rfl
  | cons a as ih =>
      intro acc
      rw [List.foldl_cons, ih]

/-- C7: the store-passing transcriptions of the two history helpers
return the entry store exactly as supplied: no loop iteration writes to
an input entry, so the input list is element-for-element unchanged. -/
theorem history_helpers_preserve_store (store : List HistoryEntry) (addrs : List Nat) :
    (getPlanningItemHistoryS store addrs).1 = store ∧
    (getGroupedCoverageHistoryS store addrs).1 = store :=
  ⟨getPlanningItemHistoryS_foldl_fst addrs (store, []),
   getGroupedCoverageHistoryS_foldl_fst addrs (store, [])⟩

/-- No user operation changes the `selectedArticles` prop snapshot the
Apply gating compares against. -/
theorem runRAState_selectedArticlesProp (ops : List RAOp) :
    ∀ s : RAModalState, (runRAState s ops).selectedArticlesProp = s.selectedArticlesProp := by
  induction ops with
  | nil => intro s; rfl
  | cons op ops ih =>
      intro s
      show (runRAState (raStep s op).1 ops).selectedArticlesProp = _
      rw [ih]
      cases op <;> rfl

/-- C5: after any sequence of add/remove (or button) operations from an
initial selection, the Apply button is disabled exactly when the pending
local selection is structurally identical to the initially supplied
selection; and an `onChange` flush to the caller is emitted by the Apply
operation and by no other operation, carrying the local selection. -/
theorem relatedArticles_apply_gating (sel : Option (List RArticle)) (repo : Option String)
    (ops : List RAOp) :
    (applyDisabled (runRAState (initialRAState sel repo) ops) = true ↔
      (runRAState (initialRAState sel repo) ops).currentlySelectedArticles = sel) ∧
    (∀ (s : RAModalState) (op : RAOp),
      (∃ l, RAEffect.onChangeCalled l ∈ (raStep s op).2) ↔ op = RAOp.pressApply) ∧
    (∀ s : RAModalState,
      RAEffect.onChangeCalled (s.currentlySelectedArticles.getD []) ∈
        (raStep s RAOp.pressApply).2) := by
  refine ⟨?_, ?_, ?_⟩
  · rw [applyDisabled, decide_eq_true_iff, runRAState_selectedArticlesProp]
    exact eq_comm
  · intro s op
    cases op <;> simp [raStep]
  · intro s
    simp [raStep]

/-- C8: when no provider name is configured, or the configured name
matches no provider returned by the listing, the resolved provider id is
`none` and every page fetch resolves locally to an empty result with
item count 0 instead of issuing a proxy request. -/
theorem unresolved_provider_disables_search (configuredName : Option String)
    (providers : List SearchProviderRec) (page pageSize : Nat)
    (h : ∀ p ∈ providers, some p.search_provider ≠ configuredName) :
    resolveSearchProvider configuredName providers = none ∧
    relatedArticlesGetItems (resolveSearchProvider configuredName providers) page pageSize =
      FetchOutcome.emptyResult [] 0 := by
  have hres : resolveSearchProvider configuredName providers = none := by
    cases configuredName with
    | none => rfl
    | some name =>
        rw [resolveSearchProvider, Option.map_eq_none', List.find?_eq_none]
        intro p hp hmatch
        exact h p hp (by rw [of_decide_eq_true hmatch])
  rw [hres]
  exact ⟨rfl, rfl⟩

/-- Witness for C8: the configured name `"reuters"` matches no listed
provider, so the id stays unresolved and page 1 resolves empty. -/
theorem unresolved_provider_disables_search_witness :
    resolveSearchProvider (some "reuters") [providerRecW] = none ∧
    relatedArticlesGetItems (resolveSearchProvider (some "reuters") [providerRecW]) 1 20 =
      FetchOutcome.emptyResult [] 0 :=
  unresolved_provider_disables_search (some "reuters") [providerRecW] 1 20 (by decide)

/-- Reading back the key just assigned gives the assigned value. -/
theorem objGetField_objSetField_self (k : String) (v : JVal) :
    ∀ fs : List (String × JVal), objGetField (objSetField fs k v) k = some v := by
  intro fs
  induction fs with
  | nil => simp [objSetField, objGetField]
  | cons p rest ih =>
      obtain ⟨k', v'⟩ := p
      by_cases h : k' = k
      · subst h
        simp [objSetField, objGetField]
      · simp only [objSetField, if_neg h, objGetField]
        exact ih

/-- Assigning one key leaves every other key's value unchanged. -/
theorem objGetField_objSetField_ne (k k' : String) (v : JVal) (h : k' ≠ k) :
    ∀ fs : List (String × JVal), objGetField (objSetField fs k v) k' = objGetField fs k' := by
  intro fs
  induction fs with
  | nil => simp [objSetField, objGetField, Ne.symm h]
  | cons p rest ih =>
      obtain ⟨k'', v''⟩ := p
      by_cases hk : k'' = k
      · subst hk
        simp only [objSetField, if_pos rfl, objGetField]
        rw [if_neg (fun hh => h hh.symm), if_neg (fun hh => h hh.symm)]
      · simp only [objSetField, if_neg hk, objGetField]
        by_cases hk' : k'' = k'
        · rw [if_pos hk', if_pos hk']
        · rw [if_neg hk', if_neg hk']
          exact ih

/-- Unfolding `lodashSet` at a single-key path on an object. -/
theorem lodashSet_single (k : String) (v : JVal) (fs : List (String × JVal)) :
    lodashSet [k] v (JVal.obj fs) = JVal.obj (objSetField fs k v) := rfl

/-- Unfolding `lodashSet` at a multi-key path on an object. -/
theorem lodashSet_cons_cons (k k2 : String) (rest : List String) (v : JVal)
    (fs : List (String × JVal)) :
    lodashSet (k :: k2 :: rest) v (JVal.obj fs) =
      JVal.obj (objSetField fs k
        (lodashSet (k2 :: rest) v
          (if isObjVal ((objGetField fs k).getD JVal.null) then
            (objGetField fs k).getD JVal.null
          else JVal.obj []))) := rfl

/-- Unfolding `lodashGet` at a nonempty path on an object. -/
theorem lodashGet_cons_obj (k : String) (rest : List String) (fs : List (String × JVal)) :
    lodashGet (k :: rest) (JVal.obj fs) =
      match objGetField fs k with
      | some c => lodashGet rest c
      | none => none := rfl

/-- Diverging paths are both nonempty. -/
theorem pathDiverges_shape (p q : List String) (h : pathDiverges p q = true) :
    ∃ p1 ps q1 qs, p = p1 :: ps ∧ q = q1 :: qs := by
  cases p with
  | nil => simp [pathDiverges] at h
  | cons p1 ps =>
      cases q with
      | nil => simp [pathDiverges] at h
      | cons q1 qs => exact ⟨p1, ps, q1, qs, rfl, rfl⟩

/-- Setting with `lodashSet` at a path leaves `lodashGet` at any diverging path
unchanged: the addressed subtrees are disjoint. -/
theorem lodashGet_lodashSet_diverged (p : List String) :
    ∀ (q : List String) (v d : JVal), pathDiverges p q = true →
      lodashGet q (lodashSet p v d) = lodashGet q d := by
  induction p with
  | nil =>
      intro q v d h
      simp [pathDiverges] at h
  | cons p1 ps ih =>
      intro q v d h
      cases q with
      | nil => simp [pathDiverges] at h
      | cons q1 qs =>
          by_cases hk : p1 = q1
          · subst hk
            rw [pathDiverges, if_pos rfl] at h
            obtain ⟨p2, ps', q2, qs', hps, hqs⟩ := pathDiverges_shape ps qs h
            subst hps
            subst hqs
            cases d with
            | obj fs =>
                rw [lodashSet_cons_cons, lodashGet_cons_obj, objGetField_objSetField_self]
                show lodashGet (q2 :: qs')
                    (lodashSet (p2 :: ps') v
                      (if isObjVal ((objGetField fs p1).getD JVal.null) then
                        (objGetField fs p1).getD JVal.null
                      else JVal.obj [])) = lodashGet (p1 :: q2 :: qs') (JVal.obj fs)
                rw [ih (q2 :: qs') v _ h, lodashGet_cons_obj]
                cases hc : objGetField fs p1 with
                | none => simp [isObjVal, lodashGet, objGetField]
                | some c =>
                    cases c <;> simp [isObjVal, lodashGet, objGetField]
            | null => rfl
            | str s => rfl
            | boolean b => rfl
            | num n => rfl
          · cases d with
            | obj fs =>
                cases ps with
                | nil =>
                    rw [lodashSet_single, lodashGet_cons_obj, lodashGet_cons_obj,
                      objGetField_objSetField_ne p1 q1 v (fun hh => hk hh.symm)]
                | cons p2 ps' =>
                    rw [lodashSet_cons_cons, lodashGet_cons_obj, lodashGet_cons_obj,
                      objGetField_objSetField_ne p1 q1 _ (fun hh => hk hh.symm)]
            | null => rfl
            | str s => rfl
            | boolean b => rfl
            | num n => rfl

/-- Reading with `lodashGet` gives back the value `lodashSet` stored at a nonempty
path on an object root. -/
theorem lodashGet_lodashSet_self (p : List String) :
    ∀ (v : JVal) (fs : List (String × JVal)), p ≠ [] →
      lodashGet p (lodashSet p v (JVal.obj fs)) = some v := by
  induction p with
  | nil => intro v fs h; exact absurd rfl h
  | cons k rest ih =>
      intro v fs _
      cases rest with
      | nil =>
          rw [lodashSet_single, lodashGet_cons_obj, objGetField_objSetField_self]
          rfl
      | cons k2 rest' =>
          rw [lodashSet_cons_cons, lodashGet_cons_obj, objGetField_objSetField_self]
          show lodashGet (k2 :: rest')
              (lodashSet (k2 :: rest') v
                (if isObjVal ((objGetField fs k).getD JVal.null) then
                  (objGetField fs k).getD JVal.null
                else JVal.obj [])) = some v
          cases hc : (objGetField fs k).getD JVal.null with
          | obj fs' => simpa [isObjVal] using ih v fs' (by simp)
          | null => simpa [isObjVal] using ih v [] (by simp)
          | str s => simpa [isObjVal] using ih v [] (by simp)
          | boolean b => simpa [isObjVal] using ih v [] (by simp)
          | num n => simpa [isObjVal] using ih v [] (by simp)

/-- C10: `onChange(p, v)` on the coverage assignment modal invokes no
caller callbacks and leaves the caller-supplied props (including
`modalProps.value`) untouched; on the local draft it sets exactly path
`p`, leaving every diverging path unchanged; `setValid` also invokes no
callbacks; the caller's `onChange` and `setCoverageDefaultDesk` are
invoked exactly during `onSubmit`, with the draft. -/
theorem coverageModal_onChange_frame (props : CoverageModalProps) (s : CoverageModalState)
    (p q : List String) (v : JVal) (fs : List (String × JVal)) (b : Bool)
    (hdiv : pathDiverges p q = true) (hdiff : s.diff = JVal.obj fs) :
    (coverageModalOnChange props s p v).2 = [] ∧
    (coverageModalOnChange props s p v).1.1 = props ∧
    lodashGet q ((coverageModalOnChange props s p v).1.2).diff = lodashGet q s.diff ∧
    lodashGet p ((coverageModalOnChange props s p v).1.2).diff = some v ∧
    (coverageModalSetValid props s b).2 = [] ∧
    (coverageModalOnSubmit props s).2 =
      [CoverageModalEffect.onChangeCb props.field s.diff,
       CoverageModalEffect.setDefaultDeskCb s.diff,
       CoverageModalEffect.hideModal] := by
  obtain ⟨p1, ps, q1, qs, hp, hq⟩ := pathDiverges_shape p q hdiv
  refine ⟨rfl, rfl, ?_, ?_, rfl, rfl⟩
  · show lodashGet q (lodashSet p v (cloneDeep s.diff)) = lodashGet q s.diff
    rw [cloneDeep]
    exact lodashGet_lodashSet_diverged p q v s.diff hdiv
  · show lodashGet p (lodashSet p v (cloneDeep s.diff)) = some v
    rw [cloneDeep, hdiff]
    exact lodashGet_lodashSet_self p v fs (by rw [hp]; exact List.cons_ne_nil p1 ps)

/-- Witness for C10: on the opened modal, setting `assigned_to.desk`
leaves the diverging path `priority` unread/unchanged, sets the target
path, and emits no callbacks; `onSubmit` emits exactly the two caller
callbacks and the hide. -/
theorem coverageModal_onChange_frame_witness :
    lodashGet ["priority"]
        ((coverageModalOnChange coverageModalPropsW coverageModalStateW
          ["assigned_to", "desk"] (JVal.str "sports")).1.2).diff =
      lodashGet ["priority"] coverageModalStateW.diff ∧
    lodashGet ["assigned_to", "desk"]
        ((coverageModalOnChange coverageModalPropsW coverageModalStateW
          ["assigned_to", "desk"] (JVal.str "sports")).1.2).diff =
      some (JVal.str "sports") :=
  ⟨(coverageModal_onChange_frame coverageModalPropsW coverageModalStateW
      ["assigned_to", "desk"] ["priority"] (JVal.str "sports") [] true
      (by decide) rfl).2.2.1,
   (coverageModal_onChange_frame coverageModalPropsW coverageModalStateW
      ["assigned_to", "desk"] ["priority"] (JVal.str "sports") [] true
      (by decide) rfl).2.2.2.1⟩


/-- The planning-item history is the sublist of entries with a falsy
`update.coverage_id`, in input order. -/
theorem getPlanningItemHistory_eq_filter (es : List HistoryEntry) :
    getPlanningItemHistory es = es.filter (fun e => (truthyCid e).isNone) := by
  have key : ∀ (es : List HistoryEntry) (acc : List HistoryEntry),
      es.foldl (fun history item =>
        if (truthyCid item).isNone then history ++ [item] else history) acc =
        acc ++ es.filter (fun e => (truthyCid e).isNone) := by
    intro es
    induction es with
    | nil => intro acc; simp
    | cons e es ih =>
        intro acc
        rw [List.foldl_cons]
        cases hc : (truthyCid e).isNone with
        | true =>
            rw [if_pos rfl, ih, List.filter_cons]
            simp [hc]
        | false =>
            rw [if_neg (by simp [hc]), ih, List.filter_cons]
            simp [hc]
  have h := key es []
  rw [getPlanningItemHistory, h, List.nil_append]

/-- Looking up the key just written finds the written group. -/
theorem lookupGroup_setGroup_self (cid : String) (g : CoverageHistoryGroup) :
    ∀ m : CoverageHistoryMap, lookupGroup (setGroup m cid g) cid = some g := by
  intro m
  induction m with
  | nil => simp [setGroup, lookupGroup, List.find?]
  | cons p rest ih =>
      obtain ⟨k, h⟩ := p
      by_cases hk : k = cid
      · subst hk
        simp [setGroup, lookupGroup, List.find?]
      · simp only [setGroup, if_neg hk, lookupGroup, List.find?_cons, decide_eq_false hk]
        exact ih

/-- Writing one key leaves every other key's group unchanged. -/
theorem lookupGroup_setGroup_ne (cid cid' : String) (g : CoverageHistoryGroup)
    (h : cid' ≠ cid) :
    ∀ m : CoverageHistoryMap, lookupGroup (setGroup m cid g) cid' = lookupGroup m cid' := by
  intro m
  induction m with
  | nil => simp [setGroup, lookupGroup, List.find?, Ne.symm h]
  | cons p rest ih =>
      obtain ⟨k, hg⟩ := p
      by_cases hk : k = cid
      · subst hk
        simp [setGroup, lookupGroup, List.find?_cons, Ne.symm h]
      · by_cases hk' : k = cid'
        · simp only [setGroup, if_neg hk, lookupGroup, List.find?_cons,
            decide_eq_true hk']
        · simp only [setGroup, if_neg hk, lookupGroup, List.find?_cons,
            decide_eq_false hk']
          exact ih

/-- Per-coverage-id trace of the grouped fold: looking up one id in the
result of folding `gchStep` equals folding the per-group update over
just the entries attributed to that id. -/
theorem lookupGroup_foldl_gchStep (es : List HistoryEntry) :
    ∀ (m : CoverageHistoryMap) (cid : String),
      lookupGroup (es.foldl gchStep m) cid =
        (coverageEntriesFor es cid).foldl
          (fun og e => some (applyEntry (og.getD {}) e)) (lookupGroup m cid) := by
  induction es with
  | nil => intro m cid; rfl
  | cons e es ih =>
      intro m cid
      rw [List.foldl_cons]
      cases hcid : truthyCid e with
      | none =>
          have hstep : gchStep m e = m := by rw [gchStep, hcid]
          have hfilter : coverageEntriesFor (e :: es) cid = coverageEntriesFor es cid := by
            simp only [coverageEntriesFor, List.filter_cons]
            simp [hcid]
          rw [hstep, hfilter, ih]
      | some cid' =>
          have hstep : gchStep m e =
              setGroup m cid' (applyEntry ((lookupGroup m cid').getD {}) e) := by
            rw [gchStep, hcid]
          by_cases hceq : cid' = cid
          · subst hceq
            have hfilter : coverageEntriesFor (e :: es) cid' =
                e :: coverageEntriesFor es cid' := by
              rw [coverageEntriesFor, List.filter_cons]
              simp [hcid, coverageEntriesFor]
            rw [hstep, hfilter, ih, List.foldl_cons, lookupGroup_setGroup_self]
          · have hfilter : coverageEntriesFor (e :: es) cid = coverageEntriesFor es cid := by
              rw [coverageEntriesFor, List.filter_cons]
              simp only [hcid, decide_eq_true_eq]
              rw [if_neg (by simpa using fun hh => hceq (Option.some.inj hh))]
              rfl
            rw [hstep, hfilter, ih,
              lookupGroup_setGroup_ne cid' cid _ (fun hh => hceq hh.symm) m]

/-- Folding the optional per-group update from an existing group is the
plain group fold. -/
theorem foldl_applyEntryOpt_some (es : List HistoryEntry) :
    ∀ g : CoverageHistoryGroup,
      es.foldl (fun og e => some (applyEntry (og.getD {}) e)) (some g) =
        some (es.foldl applyEntry g) := by
  induction es with
  | nil => intro g; rfl
  | cons e es ih =>
      intro g
      rw [List.foldl_cons, List.foldl_cons]
      exact ih (applyEntry g e)

/-- Any group reachable through `getGroupedCoverageHistory` is the
group fold over exactly the entries attributed to its coverage id. -/
theorem lookupGroup_gch_cases (es : List HistoryEntry) (cid : String)
    (g : CoverageHistoryGroup)
    (h : lookupGroup (getGroupedCoverageHistory es) cid = some g) :
    coverageEntriesFor es cid ≠ [] ∧
    g = (coverageEntriesFor es cid).foldl applyEntry {} := by
  rw [getGroupedCoverageHistory, lookupGroup_foldl_gchStep es [] cid] at h
  cases hf : coverageEntriesFor es cid with
  | nil =>
      rw [hf] at h
      exact absurd h (by simp [lookupGroup, List.find?])
  | cons e0 rest =>
      rw [hf, List.foldl_cons] at h
      have h2 : rest.foldl (fun og e => some (applyEntry (og.getD {}) e))
          (some (applyEntry ({} : CoverageHistoryGroup) e0)) = some g := h
      rw [foldl_applyEntryOpt_some rest (applyEntry ({} : CoverageHistoryGroup) e0)] at h2
      refine ⟨by simp, ?_⟩
      rw [List.foldl_cons]
      exact (Option.some.inj h2).symm

/-- The update `applyEntry` appends the entry to the group's `items`. -/
theorem applyEntry_items (g : CoverageHistoryGroup) (e : HistoryEntry) :
    (applyEntry g e).items = g.items ++ [e] := by
  rw [applyEntry]
  cases truthyStr (g2Of e) <;> cases truthyStr (schedOf e) <;>
    cases e.update.assigned_to <;> cases truthyStr (wfOf e) <;> rfl

/-- The update `applyEntry` overwrites `planning.g2_content_type` iff the entry
sets it. -/
theorem applyEntry_g2 (g : CoverageHistoryGroup) (e : HistoryEntry) :
    (applyEntry g e).planning.g2_content_type =
      match truthyStr (g2Of e) with
      | some v => some v
      | none => g.planning.g2_content_type := by
  rw [applyEntry]
  cases truthyStr (g2Of e) <;> cases truthyStr (schedOf e) <;>
    cases e.update.assigned_to <;> cases truthyStr (wfOf e) <;> rfl

/-- The update `applyEntry` overwrites `planning.scheduled` (as a moment) iff the
entry sets it. -/
theorem applyEntry_sched (g : CoverageHistoryGroup) (e : HistoryEntry) :
    (applyEntry g e).planning.scheduled =
      match truthyStr (schedOf e) with
      | some v => some (moment v)
      | none => g.planning.scheduled := by
  rw [applyEntry]
  cases truthyStr (g2Of e) <;> cases truthyStr (schedOf e) <;>
    cases e.update.assigned_to <;> cases truthyStr (wfOf e) <;> rfl

/-- The update `applyEntry` spread-merges `assigned_to` iff the entry carries the
object. -/
theorem applyEntry_assigned (g : CoverageHistoryGroup) (e : HistoryEntry) :
    (applyEntry g e).assigned_to =
      match e.update.assigned_to with
      | some o => objMerge g.assigned_to o
      | none => g.assigned_to := by
  rw [applyEntry]
  cases truthyStr (g2Of e) <;> cases truthyStr (schedOf e) <;>
    cases e.update.assigned_to <;> cases truthyStr (wfOf e) <;> rfl

/-- The update `applyEntry` overwrites `workflow_status` iff the entry sets it. -/
theorem applyEntry_wf (g : CoverageHistoryGroup) (e : HistoryEntry) :
    (applyEntry g e).workflow_status =
      match truthyStr (wfOf e) with
      | some v => some v
      | none => g.workflow_status := by
  rw [applyEntry]
  cases truthyStr (g2Of e) <;> cases truthyStr (schedOf e) <;>
    cases e.update.assigned_to <;> cases truthyStr (wfOf e) <;> rfl

/-- The group fold appends all entries to `items` in order. -/
theorem foldl_applyEntry_items (es : List HistoryEntry) :
    ∀ g : CoverageHistoryGroup, (es.foldl applyEntry g).items = g.items ++ es := by
  induction es with
  | nil => intro g; simp
  | cons e es ih =>
      intro g
      rw [List.foldl_cons, ih (applyEntry g e), applyEntry_items]
      simp

/-- The group fold's `planning.g2_content_type` is the last-set value
over the folded entries, defaulting to the start group's value. -/
theorem foldl_applyEntry_g2 (es : List HistoryEntry) :
    ∀ g : CoverageHistoryGroup,
      (es.foldl applyEntry g).planning.g2_content_type =
        es.foldl
          (fun acc e =>
            match truthyStr (g2Of e) with
            | some v => some v
            | none => acc) g.planning.g2_content_type := by
  induction es with
  | nil => intro g; rfl
  | cons e es ih =>
      intro g
      rw [List.foldl_cons, List.foldl_cons, ih (applyEntry g e), applyEntry_g2]

/-- Same for `planning.scheduled`, with the moment wrapping. -/
theorem foldl_applyEntry_sched (es : List HistoryEntry) :
    ∀ g : CoverageHistoryGroup,
      (es.foldl applyEntry g).planning.scheduled =
        es.foldl
          (fun acc e =>
            match truthyStr (schedOf e) with
            | some v => some (moment v)
            | none => acc) g.planning.scheduled := by
  induction es with
  | nil => intro g; rfl
  | cons e es ih =>
      intro g
      rw [List.foldl_cons, List.foldl_cons, ih (applyEntry g e), applyEntry_sched]

/-- Same for `workflow_status`. -/
theorem foldl_applyEntry_wf (es : List HistoryEntry) :
    ∀ g : CoverageHistoryGroup,
      (es.foldl applyEntry g).workflow_status =
        es.foldl
          (fun acc e =>
            match truthyStr (wfOf e) with
            | some v => some v
            | none => acc) g.workflow_status := by
  induction es with
  | nil => intro g; rfl
  | cons e es ih =>
      intro g
      rw [List.foldl_cons, List.foldl_cons, ih (applyEntry g e), applyEntry_wf]

/-- Same for `assigned_to`, as a running spread-merge. -/
theorem foldl_applyEntry_assigned (es : List HistoryEntry) :
    ∀ g : CoverageHistoryGroup,
      (es.foldl applyEntry g).assigned_to =
        es.foldl
          (fun acc e =>
            match e.update.assigned_to with
            | some o => objMerge acc o
            | none => acc) g.assigned_to := by
  induction es with
  | nil => intro g; rfl
  | cons e es ih =>
      intro g
      rw [List.foldl_cons, List.foldl_cons, ih (applyEntry g e), applyEntry_assigned]

/-- The moment-wrapped running fold is the raw running fold mapped
through `moment`. -/
theorem foldl_sched_map_moment (es : List HistoryEntry) :
    ∀ a : Option String,
      es.foldl
        (fun acc e =>
          match truthyStr (schedOf e) with
          | some v => some (moment v)
          | none => acc) (a.map moment) =
        (es.foldl
          (fun acc e =>
            match truthyStr (schedOf e) with
            | some v => some v
            | none => acc) a).map moment := by
  induction es with
  | nil => intro a; rfl
  | cons e es ih =>
      intro a
      rw [List.foldl_cons, List.foldl_cons]
      cases hs : truthyStr (schedOf e) with
      | none => exact ih a
      | some v => exact ih (some v)

/-- C1 (amended): for every coverage id with a group in the result,
`planning.g2_content_type`, `planning.scheduled` (as a moment of the raw
value) and `workflow_status` equal the value from the last entry (in
input order among the id's entries) that set that field, later entries
overwriting earlier ones; `assigned_to`, however, is the left-to-right
key-wise spread-merge of all `assigned_to` objects the id's entries
carry — a later entry overrides earlier values per key, but keys it
omits keep their earlier values.  The group's `items` are the id's
entries in input order. -/
theorem getGroupedCoverageHistory_latest_fields (es : List HistoryEntry) (cid : String)
    (g : CoverageHistoryGroup)
    (h : lookupGroup (getGroupedCoverageHistory es) cid = some g) :
    g.items = coverageEntriesFor es cid ∧
    g.planning.g2_content_type = lastSetValue g2Of (coverageEntriesFor es cid) ∧
    g.planning.scheduled = (lastSetValue schedOf (coverageEntriesFor es cid)).map moment ∧
    g.workflow_status = lastSetValue wfOf (coverageEntriesFor es cid) ∧
    g.assigned_to = mergedAssignedTo (coverageEntriesFor es cid) := by
  obtain ⟨-, hg⟩ := lookupGroup_gch_cases es cid g h
  subst hg
  refine ⟨?_, ?_, ?_, ?_, ?_⟩
  · rw [foldl_applyEntry_items]
    rfl
  · rw [foldl_applyEntry_g2]
    rfl
  · rw [foldl_applyEntry_sched]
    have := foldl_sched_map_moment (coverageEntriesFor es cid) none
    exact this
  · rw [foldl_applyEntry_wf]
    rfl
  · rw [foldl_applyEntry_assigned]
    rfl

/-- Counterexample to C1 as stated: with two entries on the same
coverage id, the first assigning `desk` and `user`, the second
reassigning only `desk`, the aggregated `assigned_to` keeps the first
entry's `user` key, so it differs from the `assigned_to` value of the
last entry that set the field. -/
theorem assignedTo_lastWins_counterexample :
    (lookupGroup (getGroupedCoverageHistory [covEntryA, covEntryB]) "cov1").map
        (fun g => g.assigned_to) = some [("desk", "deskB"), ("user", "userU")] ∧
    lastSetAssignedTo (coverageEntriesFor [covEntryA, covEntryB] "cov1") =
      some [("desk", "deskB")] ∧
    (some [("desk", "deskB"), ("user", "userU")] : Option AssignedObj) ≠
      some [("desk", "deskB")] := by
  refine ⟨by decide, by decide, by decide⟩

/-- Witness for C1 (amended) at the two concrete entries: the group for
`"cov1"` has the last-set content type and workflow status and the
merged assignment object. -/
theorem getGroupedCoverageHistory_latest_fields_witness :
    covGroupW.items = coverageEntriesFor [covEntryA, covEntryB] "cov1" ∧
    covGroupW.planning.g2_content_type =
      lastSetValue g2Of (coverageEntriesFor [covEntryA, covEntryB] "cov1") ∧
    covGroupW.planning.scheduled =
      (lastSetValue schedOf (coverageEntriesFor [covEntryA, covEntryB] "cov1")).map moment ∧
    covGroupW.workflow_status =
      lastSetValue wfOf (coverageEntriesFor [covEntryA, covEntryB] "cov1") ∧
    covGroupW.assigned_to = mergedAssignedTo (coverageEntriesFor [covEntryA, covEntryB] "cov1") :=
  getGroupedCoverageHistory_latest_fields [covEntryA, covEntryB] "cov1" covGroupW (by decide)

/-- C9: an entry whose `update.coverage_id` key is present but falsy
(the empty string) is classified as planning-item history: it appears in
`getPlanningItemHistory` and in no group of
`getGroupedCoverageHistory` — classification is by truthiness, not key
presence. -/
theorem falsy_coverage_id_is_planning_history (es : List HistoryEntry) (e : HistoryEntry)
    (hmem : e ∈ es) (hid : e.update.coverage_id = some "") :
    e ∈ getPlanningItemHistory es ∧
    ∀ (cid : String) (g : CoverageHistoryGroup),
      lookupGroup (getGroupedCoverageHistory es) cid = some g → e ∉ g.items := by
  have hfalsy : truthyCid e = none := by
    rw [truthyCid, hid, truthyStr]
    simp
  constructor
  · rw [getPlanningItemHistory_eq_filter]
    exact List.mem_filter.mpr ⟨hmem, by simp [hfalsy]⟩
  · intro cid g hg he
    obtain ⟨-, hgeq⟩ := lookupGroup_gch_cases es cid g hg
    rw [hgeq, foldl_applyEntry_items] at he
    have he2 : e ∈ coverageEntriesFor es cid := by simpa using he
    have := (List.mem_filter.mp he2).2
    rw [hfalsy] at this
    simp at this

/-- Witness for C9: a singleton list holding an entry with
`coverage_id = ""` lands in the planning-item history. -/
theorem falsy_coverage_id_is_planning_history_witness :
    falsyCidEntry ∈ getPlanningItemHistory [falsyCidEntry] :=
  (falsy_coverage_id_is_planning_history [falsyCidEntry] falsyCidEntry (by decide) rfl).1

/-- Updating one coverage id's group with an entry adds exactly that
entry to the combined members of all groups. -/
theorem groupItems_setGroup_apply (cid : String) (e : HistoryEntry) :
    ∀ m : CoverageHistoryMap,
      (groupItemsList (setGroup m cid (applyEntry ((lookupGroup m cid).getD {}) e)) :
          Multiset HistoryEntry) =
        (groupItemsList m : Multiset HistoryEntry) + {e} := by
  intro m
  induction m with
  | nil =>
      show ((groupItemsList [(cid, applyEntry (((none : Option CoverageHistoryGroup)).getD {}) e)] :
          List HistoryEntry) : Multiset HistoryEntry) = _
      rw [groupItemsList, List.flatMap_cons, applyEntry_items]
      simp [groupItemsList]
  | cons p rest ih =>
      obtain ⟨k, h⟩ := p
      by_cases hk : k = cid
      · subst hk
        have hl : lookupGroup ((k, h) :: rest) k = some h := by
          simp [lookupGroup, List.find?]
        rw [hl, setGroup, if_pos rfl, Option.getD_some]
        rw [groupItemsList, List.flatMap_cons, applyEntry_items]
        rw [groupItemsList, List.flatMap_cons]
        rw [← Multiset.coe_add, ← Multiset.coe_add, ← Multiset.coe_add,
          ← Multiset.coe_singleton]
        abel
      · have hl : lookupGroup ((k, h) :: rest) cid = lookupGroup rest cid := by
          simp [lookupGroup, List.find?_cons, hk]
        rw [hl, setGroup, if_neg hk]
        rw [groupItemsList, List.flatMap_cons]
        rw [groupItemsList, List.flatMap_cons]
        rw [← Multiset.coe_add, ← Multiset.coe_add]
        have ih2 := ih
        rw [groupItemsList] at ih2
        rw [show (rest.flatMap (fun p => p.2.items)) =
          groupItemsList rest from rfl]
        rw [show ((setGroup rest cid (applyEntry ((lookupGroup rest cid).getD {}) e)).flatMap
          (fun p => p.2.items)) =
          groupItemsList (setGroup rest cid (applyEntry ((lookupGroup rest cid).getD {}) e))
          from rfl]
        rw [ih]
        abel

/-- One grouped-fold step adds the entry to the combined group members
exactly when its coverage id is truthy. -/
theorem groupItems_gchStep (m : CoverageHistoryMap) (e : HistoryEntry) :
    (groupItemsList (gchStep m e) : Multiset HistoryEntry) =
      (groupItemsList m : Multiset HistoryEntry) +
        (if (truthyCid e).isSome then {e} else 0) := by
  cases hc : truthyCid e with
  | none =>
      rw [gchStep, hc]
      simp
  | some cid =>
      rw [gchStep, hc]
      simp only [Option.isSome_some, if_true]
      exact groupItems_setGroup_apply cid e m

/-- Folding the grouped step accumulates exactly the truthy-id entries
into the combined group members. -/
theorem groupItems_foldl_gchStep (es : List HistoryEntry) :
    ∀ m : CoverageHistoryMap,
      (groupItemsList (es.foldl gchStep m) : Multiset HistoryEntry) =
        (groupItemsList m : Multiset HistoryEntry) +
          ↑(es.filter (fun e => (truthyCid e).isSome)) := by
  induction es with
  | nil => intro m; simp
  | cons e es ih =>
      intro m
      rw [List.foldl_cons, ih (gchStep m e), groupItems_gchStep, List.filter_cons]
      cases hc : (truthyCid e).isSome with
      | true =>
          rw [if_pos rfl, if_pos rfl]
          rw [← Multiset.cons_coe, ← Multiset.singleton_add]
          abel
      | false =>
          rw [if_neg (by simp), if_neg (by simp)]
          abel

/-- The falsy-id and truthy-id entries of a history list partition it as
a multiset. -/
theorem filter_cid_partition (es : List HistoryEntry) :
    (↑(es.filter (fun e => (truthyCid e).isNone)) : Multiset HistoryEntry) +
      ↑(es.filter (fun e => (truthyCid e).isSome)) = ↑es := by
  induction es with
  | nil => simp
  | cons e es ih =>
      rw [List.filter_cons, List.filter_cons]
      cases hc : truthyCid e with
      | none =>
          rw [if_pos (by simp), if_neg (by simp)]
          rw [← Multiset.cons_coe, ← Multiset.singleton_add,
            ← Multiset.cons_coe, ← Multiset.singleton_add, ← ih]
          abel
      | some v =>
          rw [if_neg (by simp), if_pos (by simp)]
          rw [← Multiset.cons_coe, ← Multiset.singleton_add,
            ← Multiset.cons_coe, ← Multiset.singleton_add, ← ih]
          abel

/-- C2: the planning-item history together with the members of all
coverage groups reconstructs the input entry list exactly as a
multiset — no entry dropped, none duplicated. -/
theorem history_partition_reconstructs (es : List HistoryEntry) :
    ((getPlanningItemHistory es ++ groupItemsList (getGroupedCoverageHistory es) :
        List HistoryEntry) : Multiset HistoryEntry) = (es : Multiset HistoryEntry) := by
  rw [← Multiset.coe_add]
  rw [getPlanningItemHistory_eq_filter, getGroupedCoverageHistory,
    groupItems_foldl_gchStep es []]
  have h0 : (groupItemsList ([] : CoverageHistoryMap) : Multiset HistoryEntry) = 0 := rfl
  rw [h0, zero_add]
  exact filter_cid_partition es
